import Mathlib

/-!
Verification of the `fixerr` CSV record-reconstruction engine.

Shallow embedding of `src/engine.rs` (and `calculate_success_rate` from
`src/ui.rs`).  Rust `String`s are modelled as `List Char`; a physical row
(`csv::StringRecord`) is a `List Field`; the mutable `Stats` and the local
state of `reconstruct_records` (the field buffer and the accumulated
logical rows) are carried explicitly through a fold over the row stream.
`f64` arithmetic in `calculate_success_rate` is modelled by exact rational
arithmetic.
-/

namespace Fixerr

/-- A Rust `String` field, modelled as its character sequence. -/
abbrev Field := List Char

/-- `Stats` from engine.rs lines 63-71. -/
structure Stats where
  total_rows : Nat
  fixed_rows : Nat
  removed_rows : Nat
deriving DecidableEq, Repr

/-- `Stats::default()`: all counters zero. -/
def Stats.zero : Stats := ⟨0, 0, 0⟩

/-- The mutable state of the `reconstruct_records` loop: the accumulation
`buffer`, the `logical_rows` output vector, and the `stats` counters. -/
structure EngineState where
  buffer : List Field
  rows : List (List Field)
  stats : Stats
deriving DecidableEq, Repr

/-- engine.rs lines 146-156: the first field of the incoming record is pushed
onto the last buffered field, preceded by a newline when that field is
non-empty (`if !last_col.is_empty() { last_col.push('\n'); }
last_col.push_str(first_part)`). -/
def pushFirst (last first : Field) : Field :=
  (if last.isEmpty then last else last ++ ['\n']) ++ first

/-- Apply `pushFirst` to the last element of the buffer (`buffer.last_mut()`;
`None` when the buffer is empty, in which case nothing happens). -/
def stitchFirst : List Field → Field → List Field
  | [], _ => []
  | [last], first => [pushFirst last first]
  | b :: b2 :: rest, first => b :: stitchFirst (b2 :: rest) first

/-- engine.rs lines 144-161 (Case 2): stitch the record's first field
(`record.get(0)`, absent when the record has no fields) onto the buffer's
last field, then append the record's fields at indices `1..rec_len`. -/
def stitchAppend (buffer : List Field) (record : List Field) : List Field :=
  (match record with
   | [] => buffer
   | first :: _ => stitchFirst buffer first) ++ record.drop 1

/-- engine.rs lines 117-173: the body of the `for result in reader.records()`
loop, acting on one physical `record`. -/
def processRow (expected : Nat) (st : EngineState) (record : List Field) : EngineState :=
  let st := { st with stats := { st.stats with total_rows := st.stats.total_rows + 1 } }
  if record.length > expected then
    { st with stats := { st.stats with removed_rows := st.stats.removed_rows + 1 } }
  else if st.buffer.isEmpty then
    if record.length = expected then
      { st with rows := st.rows ++ [record] }
    else
      { st with buffer := st.buffer ++ record }
  else
    let buf := stitchAppend st.buffer record
    if buf.length = expected then
      { st with rows := st.rows ++ [buf],
                buffer := [],
                stats := { st.stats with fixed_rows := st.stats.fixed_rows + 1 } }
    else if buf.length > expected then
      { st with buffer := [],
                stats := { st.stats with removed_rows := st.stats.removed_rows + 1 } }
    else
      { st with buffer := buf }

/-- engine.rs lines 175-178: after the loop, a non-empty buffer counts as one
removed row. -/
def finalizeStream (st : EngineState) : EngineState :=
  if st.buffer.isEmpty then st
  else { st with stats := { st.stats with removed_rows := st.stats.removed_rows + 1 } }

/-- engine.rs lines 110-112: the detected header row, when present, is pushed
onto `logical_rows` before the loop starts. -/
def headerRows : Option (List Field) → List (List Field)
  | some h => [h]
  | none => []

/-- engine.rs lines 95-181, the pure core of `reconstruct_records`: given the
already-detected `expected` column count and optional header row, fold the
loop body over the stream of physical records and apply the end-of-stream
step.  `stats` is the caller-supplied `&mut Stats`. -/
def reconstruct_records (expected : Nat) (maybe_headers : Option (List Field))
    (records : List (List Field)) (stats : Stats) : EngineState :=
  finalizeStream
    (records.foldl (processRow expected)
      { buffer := [], rows := headerRows maybe_headers, stats := stats })

-- ============================================
-- Basic facts about the stitching helpers
-- ============================================

theorem stitchFirst_length (buffer : List Field) (first : Field) :
    (stitchFirst buffer first).length = buffer.length := by
  induction buffer with
  | nil => simp [stitchFirst]
  | cons b rest ih =>
    cases rest with
    | nil => simp [stitchFirst]
    | cons b2 rest2 => simpa [stitchFirst] using ih

theorem stitchAppend_nil (buffer : List Field) : stitchAppend buffer [] = buffer := by
  simp [stitchAppend]

theorem stitchAppend_length_cons (buffer : List Field) (f : Field) (rest : List Field) :
    (stitchAppend buffer (f :: rest)).length = buffer.length + rest.length := by
  simp [stitchAppend, stitchFirst_length]

theorem stitchAppend_ne_nil (buffer : List Field) (record : List Field)
    (hb : buffer ≠ []) : stitchAppend buffer record ≠ [] := by
  have hlen : 0 < buffer.length := List.length_pos.mpr hb
  cases record with
  | nil => simpa [stitchAppend_nil] using hb
  | cons f rest =>
    have hpos : 0 < (stitchAppend buffer (f :: rest)).length := by
      rw [stitchAppend_length_cons]; omega
    exact List.length_pos.mp hpos

theorem stitchFirst_eq_dropLast (buffer : List Field) (hb : buffer ≠ []) (first : Field) :
    stitchFirst buffer first = buffer.dropLast ++ [pushFirst (buffer.getLast hb) first] := by
  induction buffer with
  | nil => exact absurd rfl hb
  | cons b rest ih =>
    cases rest with
    | nil => simp [stitchFirst]
    | cons b2 rest2 =>
      have := ih (by simp)
      simp [stitchFirst, this, List.getLast_cons]

-- ============================================
-- C4: over-length rows are discarded without touching anything
-- ============================================

/-- C4: a physical row with more fields than `expected_columns` only bumps
`total_rows` and `removed_rows`; the buffer, the emitted rows and
`fixed_rows` are left exactly as they were, in either state. -/
theorem C4_over_length_discard (expected : Nat) (st : EngineState) (record : List Field)
    (h : record.length > expected) :
    (processRow expected st record).buffer = st.buffer ∧
    (processRow expected st record).rows = st.rows ∧
    (processRow expected st record).stats.fixed_rows = st.stats.fixed_rows ∧
    (processRow expected st record).stats.removed_rows = st.stats.removed_rows + 1 ∧
    (processRow expected st record).stats.total_rows = st.stats.total_rows + 1 := by
  simp [processRow, h]

/-- Witness for C4 at a concrete over-length row. -/
theorem C4_over_length_discard_witness :
    (processRow 0 ⟨[], [], Stats.zero⟩ [['a']]).buffer = (⟨[], [], Stats.zero⟩ : EngineState).buffer ∧
    (processRow 0 ⟨[], [], Stats.zero⟩ [['a']]).rows = (⟨[], [], Stats.zero⟩ : EngineState).rows ∧
    (processRow 0 ⟨[], [], Stats.zero⟩ [['a']]).stats.fixed_rows = Stats.zero.fixed_rows ∧
    (processRow 0 ⟨[], [], Stats.zero⟩ [['a']]).stats.removed_rows = Stats.zero.removed_rows + 1 ∧
    (processRow 0 ⟨[], [], Stats.zero⟩ [['a']]).stats.total_rows = Stats.zero.total_rows + 1 :=
  C4_over_length_discard 0 ⟨[], [], Stats.zero⟩ [['a']] (by decide)

-- ============================================
-- C6: end of stream with a pending buffer
-- ============================================

/-- C6: at end of stream a non-empty buffer bumps `removed_rows` by exactly
one and emits nothing; an empty buffer leaves `removed_rows` alone. -/
theorem C6_end_of_stream (st : EngineState) :
    (st.buffer ≠ [] →
        (finalizeStream st).stats.removed_rows = st.stats.removed_rows + 1 ∧
        (finalizeStream st).rows = st.rows) ∧
    (st.buffer = [] →
        (finalizeStream st).stats.removed_rows = st.stats.removed_rows) := by
  constructor
  · intro h
    simp [finalizeStream, h]
  · intro h
    simp [finalizeStream, h]

/-- Witness for C6: one concrete non-empty-buffer state, one empty-buffer
state. -/
theorem C6_end_of_stream_witness :
    ((finalizeStream ⟨[['a']], [], Stats.zero⟩).stats.removed_rows = Stats.zero.removed_rows + 1 ∧
       (finalizeStream ⟨[['a']], [], Stats.zero⟩).rows = ([] : List (List Field))) ∧
    (finalizeStream ⟨[], [], Stats.zero⟩).stats.removed_rows = Stats.zero.removed_rows :=
  ⟨(C6_end_of_stream ⟨[['a']], [], Stats.zero⟩).1 (by decide),
   (C6_end_of_stream ⟨[], [], Stats.zero⟩).2 rfl⟩

-- ============================================
-- C2: the three outcomes of the accumulating step
-- ============================================

/-- C2: when a row with at most `expected` fields arrives on a non-empty
buffer, the stitched-and-appended buffer is emitted (with `fixed_rows`
bumped) when its length hits `expected`, silently discarded (with
`removed_rows` bumped) when it overshoots, and kept as the new buffer
otherwise. -/
theorem C2_accumulating_outcomes (expected : Nat) (st : EngineState) (record : List Field)
    (hb : st.buffer ≠ []) (hn : record.length ≤ expected) :
    ((stitchAppend st.buffer record).length = expected →
        processRow expected st record =
          { st with rows := st.rows ++ [stitchAppend st.buffer record],
                    buffer := [],
                    stats := { st.stats with total_rows := st.stats.total_rows + 1,
                                             fixed_rows := st.stats.fixed_rows + 1 } }) ∧
    ((stitchAppend st.buffer record).length > expected →
        processRow expected st record =
          { st with buffer := [],
                    stats := { st.stats with total_rows := st.stats.total_rows + 1,
                                             removed_rows := st.stats.removed_rows + 1 } }) ∧
    ((stitchAppend st.buffer record).length < expected →
        processRow expected st record =
          { st with buffer := stitchAppend st.buffer record,
                    stats := { st.stats with total_rows := st.stats.total_rows + 1 } }) := by
  have hgt : ¬ record.length > expected := by omega
  have hbe : st.buffer.isEmpty = false := by
    simpa [List.isEmpty_iff] using hb
  refine ⟨fun heq => ?_, fun hover => ?_, fun hunder => ?_⟩
  · simp [processRow, hgt, hbe, heq]
  · have hne : ¬ (stitchAppend st.buffer record).length = expected := by omega
    simp [processRow, hgt, hbe, hne, hover]
  · have hne : ¬ (stitchAppend st.buffer record).length = expected := by omega
    have hng : ¬ (stitchAppend st.buffer record).length > expected := by omega
    simp [processRow, hgt, hbe, hne, hng]

/-- Witness for C2: buffer `["a"]`, record `["b"]`, expected 2 — the stitched
buffer `["a\nb"]` is still short, so it is kept. -/
theorem C2_accumulating_outcomes_witness :
    processRow 2 ⟨[['a']], [], Stats.zero⟩ [['b']] =
      ⟨[['a', '\n', 'b']], [], ⟨1, 0, 0⟩⟩ := by
  have h := (C2_accumulating_outcomes 2 ⟨[['a']], [], Stats.zero⟩ [['b']]
    (by decide) (by decide)).2.2 (by decide)
  simpa using h

-- ============================================
-- C3: the stitching rule itself
-- ============================================

/-- C3: on a non-empty buffer, an incoming row `first :: rest` (of width at
most `expected`) turns the buffer's last field into its old value, a newline
exactly when that old value was non-empty, then `first`; the remaining
fields are appended in order. -/
theorem C3_stitch_rule (expected : Nat) (buffer : List Field) (hb : buffer ≠ [])
    (first : Field) (rest : List Field)
    (hn : (first :: rest).length ≤ expected) :
    stitchAppend buffer (first :: rest) =
      buffer.dropLast ++
        [buffer.getLast hb ++ (if buffer.getLast hb = [] then [] else ['\n']) ++ first] ++
        rest := by
  have hpf : pushFirst (buffer.getLast hb) first =
      buffer.getLast hb ++ (if buffer.getLast hb = [] then [] else ['\n']) ++ first := by
    by_cases h : buffer.getLast hb = []
    · simp [pushFirst, h]
    · simp [pushFirst, h, List.isEmpty_iff]
  simp [stitchAppend, stitchFirst_eq_dropLast buffer hb first, hpf]

/-- Witness for C3: buffer `["x"]`, record `["y"]`. -/
theorem C3_stitch_rule_witness :
    stitchAppend [['x']] [['y']] = [['x', '\n', 'y']] := by
  have h := C3_stitch_rule 2 [['x']] (by decide) ['y'] [] (by decide)
  simpa using h

-- ============================================
-- C1: every emitted row (header aside) has exactly `expected` fields
-- ============================================

theorem processRow_rows_width (expected : Nat) (st : EngineState) (record : List Field)
    (r : List Field) (hr : r ∈ (processRow expected st record).rows) :
    r ∈ st.rows ∨ r.length = expected := by
  by_cases hgt : record.length > expected
  · simp [processRow, hgt] at hr
    exact Or.inl hr
  · by_cases hbe : st.buffer.isEmpty
    · by_cases heq : record.length = expected
      · simp [processRow, hgt, hbe, heq] at hr
        rcases hr with hr | hr
        · exact Or.inl hr
        · exact Or.inr (hr ▸ heq)
      · simp [processRow, hgt, hbe, heq] at hr
        exact Or.inl hr
    · by_cases heq : (stitchAppend st.buffer record).length = expected
      · simp [processRow, hgt, hbe, heq] at hr
        rcases hr with hr | hr
        · exact Or.inl hr
        · exact Or.inr (by rw [hr, heq])
      · by_cases hover : (stitchAppend st.buffer record).length > expected
        · simp [processRow, hgt, hbe, heq, hover] at hr
          exact Or.inl hr
        · simp [processRow, hgt, hbe, heq, hover] at hr
          exact Or.inl hr

theorem foldl_rows_width (expected : Nat) (records : List (List Field)) :
    ∀ (st : EngineState) (r : List Field),
      r ∈ (records.foldl (processRow expected) st).rows →
      r ∈ st.rows ∨ r.length = expected := by
  induction records with
  | nil => intro st r hr; exact Or.inl hr
  | cons rec rest ih =>
    intro st r hr
    rcases ih (processRow expected st rec) r hr with h | h
    · exact processRow_rows_width expected st rec r h
    · exact Or.inr h

theorem finalizeStream_rows (st : EngineState) : (finalizeStream st).rows = st.rows := by
  by_cases h : st.buffer.isEmpty <;> simp [finalizeStream, h]

/-- C1: every logical row emitted by `reconstruct_records` is either the
header row or has exactly `expected` fields. -/
theorem C1_emitted_width (expected : Nat) (maybe_headers : Option (List Field))
    (records : List (List Field)) (stats : Stats) (r : List Field)
    (hr : r ∈ (reconstruct_records expected maybe_headers records stats).rows) :
    r ∈ headerRows maybe_headers ∨ r.length = expected := by
  rw [reconstruct_records, finalizeStream_rows] at hr
  exact foldl_rows_width expected records _ r hr

/-- Witness for C1 on a concrete two-row stream with a split record. -/
theorem C1_emitted_width_witness :
    [['a', '\n', 'b'], ['c']] ∈ headerRows (none : Option (List Field)) ∨
      ([['a', '\n', 'b'], ['c']] : List Field).length = 2 :=
  C1_emitted_width 2 none [[['a']], [['b'], ['c']]] Stats.zero
    [['a', '\n', 'b'], ['c']] (by decide)

-- ============================================
-- C5: a clean stream passes through unchanged
-- ============================================

theorem foldl_clean_pass (expected : Nat) (records : List (List Field)) :
    ∀ (st : EngineState), st.buffer = [] →
      (∀ r ∈ records, r.length = expected) →
      (records.foldl (processRow expected) st).buffer = [] ∧
      (records.foldl (processRow expected) st).rows = st.rows ++ records ∧
      (records.foldl (processRow expected) st).stats.fixed_rows = st.stats.fixed_rows ∧
      (records.foldl (processRow expected) st).stats.removed_rows = st.stats.removed_rows := by
  induction records with
  | nil => intro st hb _; simp [hb]
  | cons rec rest ih =>
    intro st hb hall
    have hlen : rec.length = expected := hall rec (by simp)
    have hgt : ¬ rec.length > expected := by omega
    have hbe : st.buffer.isEmpty = true := by simp [List.isEmpty_iff, hb]
    have hstep : processRow expected st rec =
        { st with rows := st.rows ++ [rec],
                  stats := { st.stats with total_rows := st.stats.total_rows + 1 } } := by
      simp [processRow, hgt, hbe, hlen]
    have hrest := ih (processRow expected st rec) (by rw [hstep]; exact hb)
      (fun r hr => hall r (by simp [hr]))
    rw [List.foldl_cons]
    refine ⟨hrest.1, ?_, ?_, ?_⟩
    · rw [hrest.2.1, hstep]; simp
    · rw [hrest.2.2.1, hstep]
    · rw [hrest.2.2.2, hstep]

/-- C5: when every physical row already has exactly `expected` fields, the
output is the (optional) header followed by the input rows in order, and
both `fixed_rows` and `removed_rows` finish at zero. -/
theorem C5_clean_stream_identity (expected : Nat) (maybe_headers : Option (List Field))
    (records : List (List Field))
    (hall : ∀ r ∈ records, r.length = expected) :
    (reconstruct_records expected maybe_headers records Stats.zero).rows =
        headerRows maybe_headers ++ records ∧
    (reconstruct_records expected maybe_headers records Stats.zero).stats.fixed_rows = 0 ∧
    (reconstruct_records expected maybe_headers records Stats.zero).stats.removed_rows = 0 := by
  have h := foldl_clean_pass expected records
    { buffer := [], rows := headerRows maybe_headers, stats := Stats.zero } rfl hall
  have hfin : finalizeStream (records.foldl (processRow expected)
      { buffer := [], rows := headerRows maybe_headers, stats := Stats.zero }) =
      records.foldl (processRow expected)
        { buffer := [], rows := headerRows maybe_headers, stats := Stats.zero } := by
    simp [finalizeStream, List.isEmpty_iff, h.1]
  rw [reconstruct_records, hfin]
  exact ⟨h.2.1, h.2.2.1, h.2.2.2⟩

/-- Witness for C5 on a concrete clean two-row stream with a header. -/
theorem C5_clean_stream_identity_witness :
    (reconstruct_records 1 (some [['h']]) [[['a']], [['b']]] Stats.zero).rows =
        headerRows (some [['h']]) ++ [[['a']], [['b']]] ∧
    (reconstruct_records 1 (some [['h']]) [[['a']], [['b']]] Stats.zero).stats.fixed_rows = 0 ∧
    (reconstruct_records 1 (some [['h']]) [[['a']], [['b']]] Stats.zero).stats.removed_rows = 0 :=
  C5_clean_stream_identity 1 (some [['h']]) [[['a']], [['b']]] (by decide)

-- ============================================
-- C10: removed_rows ≤ total_rows, and the success rate is in [0, 100]
-- ============================================

/-- ui.rs lines 260-267, `calculate_success_rate`; the `f64` arithmetic is
modelled by exact rational arithmetic (the division and multiplication are
exact here, and `usize` subtraction is `Nat` subtraction). -/
def calculate_success_rate (stats : Stats) : ℚ :=
  if stats.total_rows = 0 then 0
  else ((stats.total_rows - stats.removed_rows : Nat) : ℚ) / (stats.total_rows : ℚ) * 100

/-- The inductive invariant: the removed count, plus one pending discard when
the buffer is non-empty, never exceeds the consumed-row count. -/
def StatsInv (st : EngineState) : Prop :=
  st.stats.removed_rows + (if st.buffer = [] then 0 else 1) ≤ st.stats.total_rows

theorem processRow_statsInv (expected : Nat) (st : EngineState) (record : List Field)
    (h : StatsInv st) : StatsInv (processRow expected st record) := by
  unfold StatsInv at h ⊢
  by_cases hgt : record.length > expected
  · simp [processRow, hgt]
    by_cases hb : st.buffer = [] <;> simp [hb] at h ⊢ <;> omega
  · by_cases hbe : st.buffer.isEmpty
    · have hb : st.buffer = [] := by simpa [List.isEmpty_iff] using hbe
      by_cases heq : record.length = expected
      · simp [processRow, hgt, hbe, heq, hb] at h ⊢; omega
      · simp [processRow, hgt, hbe, heq, hb] at h ⊢
        by_cases hrec : record = [] <;> simp [hrec] at h ⊢ <;> omega
    · have hb : st.buffer ≠ [] := by simpa [List.isEmpty_iff] using hbe
      have hbuf := stitchAppend_ne_nil st.buffer record hb
      simp [hb] at h
      by_cases heq : (stitchAppend st.buffer record).length = expected
      · simp [processRow, hgt, hbe, heq]; omega
      · by_cases hover : (stitchAppend st.buffer record).length > expected
        · simp [processRow, hgt, hbe, heq, hover]; omega
        · simp [processRow, hgt, hbe, heq, hover, hbuf]; omega

theorem foldl_statsInv (expected : Nat) (records : List (List Field)) :
    ∀ (st : EngineState), StatsInv st →
      StatsInv (records.foldl (processRow expected) st) := by
  induction records with
  | nil => intro st h; exact h
  | cons rec rest ih =>
    intro st h
    exact ih (processRow expected st rec) (processRow_statsInv expected st rec h)

theorem reconstruct_removed_le_total (expected : Nat) (maybe_headers : Option (List Field))
    (records : List (List Field)) :
    (reconstruct_records expected maybe_headers records Stats.zero).stats.removed_rows ≤
      (reconstruct_records expected maybe_headers records Stats.zero).stats.total_rows := by
  have hinv := foldl_statsInv expected records
    { buffer := [], rows := headerRows maybe_headers, stats := Stats.zero }
    (by simp [StatsInv, Stats.zero])
  unfold StatsInv at hinv
  rw [reconstruct_records]
  set mid := records.foldl (processRow expected)
    { buffer := [], rows := headerRows maybe_headers, stats := Stats.zero } with hmid
  by_cases hb : mid.buffer = []
  · simp [finalizeStream, List.isEmpty_iff, hb] at hinv ⊢; omega
  · simp [finalizeStream, List.isEmpty_iff, hb] at hinv ⊢; omega

theorem success_rate_bounds (stats : Stats)
    (h : stats.removed_rows ≤ stats.total_rows) :
    0 ≤ calculate_success_rate stats ∧ calculate_success_rate stats ≤ 100 := by
  unfold calculate_success_rate
  by_cases h0 : stats.total_rows = 0
  · simp [h0]
  · simp only [h0, if_false]
    have htpos : (0 : ℚ) < (stats.total_rows : ℚ) := by
      exact_mod_cast Nat.pos_of_ne_zero h0
    have hnum : (0 : ℚ) ≤ ((stats.total_rows - stats.removed_rows : Nat) : ℚ) := by
      exact_mod_cast Nat.zero_le _
    have hle : ((stats.total_rows - stats.removed_rows : Nat) : ℚ) ≤ (stats.total_rows : ℚ) := by
      exact_mod_cast Nat.sub_le _ _
    constructor
    · apply mul_nonneg (div_nonneg hnum (le_of_lt htpos)) (by norm_num)
    · have hdiv : ((stats.total_rows - stats.removed_rows : Nat) : ℚ) / (stats.total_rows : ℚ) ≤ 1 :=
        (div_le_one htpos).mpr hle
      calc ((stats.total_rows - stats.removed_rows : Nat) : ℚ) / (stats.total_rows : ℚ) * 100
          ≤ 1 * 100 := by
            apply mul_le_mul_of_nonneg_right hdiv (by norm_num)
        _ = 100 := by norm_num

/-- C10: starting from zeroed statistics, every run of `reconstruct_records`
ends with `removed_rows ≤ total_rows`, so the `usize` subtraction in
`calculate_success_rate` cannot underflow; the returned rate lies in
`[0, 100]` and is `0` when `total_rows = 0`. -/
theorem C10_success_rate_safe (expected : Nat) (maybe_headers : Option (List Field))
    (records : List (List Field)) :
    (reconstruct_records expected maybe_headers records Stats.zero).stats.removed_rows ≤
        (reconstruct_records expected maybe_headers records Stats.zero).stats.total_rows ∧
    0 ≤ calculate_success_rate
        (reconstruct_records expected maybe_headers records Stats.zero).stats ∧
    calculate_success_rate
        (reconstruct_records expected maybe_headers records Stats.zero).stats ≤ 100 ∧
    ((reconstruct_records expected maybe_headers records Stats.zero).stats.total_rows = 0 →
        calculate_success_rate
          (reconstruct_records expected maybe_headers records Stats.zero).stats = 0) := by
  have hle := reconstruct_removed_le_total expected maybe_headers records
  have hb := success_rate_bounds _ hle
  exact ⟨hle, hb.1, hb.2, fun h0 => by simp [calculate_success_rate, h0]⟩

/-- Witness for C10 on the empty stream (where `total_rows = 0`). -/
theorem C10_success_rate_safe_witness :
    (reconstruct_records 1 none [] Stats.zero).stats.removed_rows ≤
        (reconstruct_records 1 none [] Stats.zero).stats.total_rows ∧
    calculate_success_rate (reconstruct_records 1 none [] Stats.zero).stats = 0 :=
  ⟨(C10_success_rate_safe 1 none []).1,
   (C10_success_rate_safe 1 none []).2.2.2 rfl⟩

-- ============================================
-- FieldNormalizer: clean_and_normalize_field (engine.rs lines 242-244)
-- ============================================

/-- Rust `char::is_whitespace`: the Unicode `White_Space` property
(U+0009..U+000D, U+0020, U+0085, U+00A0, U+1680, U+2000..U+200A, U+2028,
U+2029, U+202F, U+205F, U+3000). -/
def rustIsWhitespace (c : Char) : Bool :=
  let n := c.toNat
  (0x09 ≤ n && n ≤ 0x0D) || n == 0x20 || n == 0x85 || n == 0xA0 || n == 0x1680 ||
    (0x2000 ≤ n && n ≤ 0x200A) || n == 0x2028 || n == 0x2029 || n == 0x202F ||
    n == 0x205F || n == 0x3000

/-- Worker for `split_whitespace`: scan the characters, growing the current
token `cur` and cutting a token at every whitespace character. -/
def splitWsAux : List Char → List Char → List (List Char)
  | [], cur => if cur = [] then [] else [cur]
  | c :: rest, cur =>
    if rustIsWhitespace c then
      if cur = [] then splitWsAux rest []
      else cur :: splitWsAux rest []
    else splitWsAux rest (cur ++ [c])

/-- Rust `str::split_whitespace`: the maximal runs of non-whitespace
characters, in order. -/
def split_whitespace (s : List Char) : List (List Char) :=
  splitWsAux s []

/-- `Vec::join(" ")`: interpose a single ASCII space between the pieces. -/
def joinSpace : List (List Char) → List Char
  | [] => []
  | [t] => t
  | t :: t2 :: ts => t ++ ' ' :: joinSpace (t2 :: ts)

/-- engine.rs lines 242-244:
`input.split_whitespace().collect::<Vec<&str>>().join(" ")`. -/
def clean_and_normalize_field (input : List Char) : List Char :=
  joinSpace (split_whitespace input)

theorem splitWsAux_tokens (s : List Char) :
    ∀ (cur : List Char), (∀ c ∈ cur, rustIsWhitespace c = false) →
      ∀ t ∈ splitWsAux s cur, t ≠ [] ∧ ∀ c ∈ t, rustIsWhitespace c = false := by
  induction s with
  | nil =>
    intro cur hcur t ht
    by_cases h : cur = []
    · simp [splitWsAux, h] at ht
    · simp [splitWsAux, h] at ht
      exact ht ▸ ⟨h, hcur⟩
  | cons c rest ih =>
    intro cur hcur t ht
    by_cases hws : rustIsWhitespace c
    · by_cases h : cur = []
      · rw [splitWsAux, if_pos hws, if_pos h] at ht
        exact ih [] (by simp) t ht
      · rw [splitWsAux, if_pos hws, if_neg h] at ht
        rcases List.mem_cons.mp ht with h1 | h1
        · exact h1 ▸ ⟨h, hcur⟩
        · exact ih [] (by simp) t h1
    · rw [splitWsAux, if_neg hws] at ht
      refine ih (cur ++ [c]) ?_ t ht
      intro x hx
      rcases List.mem_append.mp hx with h1 | h1
      · exact hcur x h1
      · simp at h1
        rw [h1]
        exact Bool.of_not_eq_true hws

theorem splitWsAux_token_prepend (t : List Char) :
    ∀ (s cur : List Char), (∀ c ∈ t, rustIsWhitespace c = false) →
      splitWsAux (t ++ s) cur = splitWsAux s (cur ++ t) := by
  induction t with
  | nil => intro s cur _; simp
  | cons c t ih =>
    intro s cur h
    have hc : rustIsWhitespace c = false := h c (by simp)
    have ht : ∀ x ∈ t, rustIsWhitespace x = false := fun x hx => h x (by simp [hx])
    rw [List.cons_append, splitWsAux, if_neg (by simp [hc])]
    rw [ih s (cur ++ [c]) ht, List.append_assoc]
    simp

theorem split_whitespace_joinSpace (ts : List (List Char))
    (h : ∀ t ∈ ts, t ≠ [] ∧ ∀ c ∈ t, rustIsWhitespace c = false) :
    split_whitespace (joinSpace ts) = ts := by
  induction ts with
  | nil => simp [joinSpace, split_whitespace, splitWsAux]
  | cons t ts ih =>
    rcases h t (by simp) with ⟨htne, htws⟩
    cases ts with
    | nil =>
      show splitWsAux (joinSpace [t]) [] = [t]
      rw [joinSpace]
      have := splitWsAux_token_prepend t [] [] htws
      simp at this
      rw [this, splitWsAux, if_neg htne]
    | cons t2 ts2 =>
      show splitWsAux (joinSpace (t :: t2 :: ts2)) [] = t :: t2 :: ts2
      rw [joinSpace, splitWsAux_token_prepend t (' ' :: joinSpace (t2 :: ts2)) [] htws]
      simp only [List.nil_append]
      rw [splitWsAux, if_pos (by decide), if_neg htne]
      exact congrArg (t :: ·) (ih (fun x hx => h x (by simp [hx])))

/-- C7: `clean_and_normalize_field` is idempotent. -/
theorem C7_normalize_idempotent (s : List Char) :
    clean_and_normalize_field (clean_and_normalize_field s) = clean_and_normalize_field s := by
  unfold clean_and_normalize_field
  rw [split_whitespace_joinSpace (split_whitespace s)
    (splitWsAux_tokens s [] (by simp))]

-- ============================================
-- C9: which characters act as separators
-- ============================================

/-- Modelled from the spec: split at every character satisfying `p`, keeping
empty fragments (fragments between consecutive separators). -/
def splitOnPredAux (p : Char → Bool) : List Char → List Char → List (List Char)
  | [], cur => [cur]
  | c :: rest, cur =>
    if p c then cur :: splitOnPredAux p rest []
    else splitOnPredAux p rest (cur ++ [c])

/-- Modelled from the spec: the four-character separator set the spec names
(space, tab, newline, carriage return). -/
def specFourWs (c : Char) : Bool :=
  c == ' ' || c == '\t' || c == '\n' || c == '\r'

/-- Modelled from the spec: split on the claimed four whitespace characters,
drop empty fragments, rejoin with a single ASCII space. -/
def normalize_spec_four (s : List Char) : List Char :=
  joinSpace ((splitOnPredAux specFourWs s []).filter (fun t => !t.isEmpty))

/-- Counterexample to C9: on `"a\x0Cb"` (a form feed between two letters) the
code treats the form feed as a separator — `char::is_whitespace` is the
Unicode White_Space property — while the claimed four-character splitter
leaves the string unchanged. -/
theorem C9_counterexample :
    clean_and_normalize_field ['a', Char.ofNat 0x0C, 'b'] = ['a', ' ', 'b'] ∧
    normalize_spec_four ['a', Char.ofNat 0x0C, 'b'] = ['a', Char.ofNat 0x0C, 'b'] ∧
    clean_and_normalize_field ['a', Char.ofNat 0x0C, 'b'] ≠
      normalize_spec_four ['a', Char.ofNat 0x0C, 'b'] := by
  refine ⟨by decide, by decide, by decide⟩

theorem splitWsAux_eq_filter_splitOnPred (s : List Char) :
    ∀ (cur : List Char),
      splitWsAux s cur =
        (splitOnPredAux rustIsWhitespace s cur).filter (fun t => !t.isEmpty) := by
  induction s with
  | nil =>
    intro cur
    by_cases h : cur = [] <;>
      simp [splitWsAux, splitOnPredAux, h, List.isEmpty_iff]
  | cons c rest ih =>
    intro cur
    by_cases hws : rustIsWhitespace c
    · by_cases h : cur = []
      · simp [splitWsAux, splitOnPredAux, hws, h, ih]
      · simp [splitWsAux, splitOnPredAux, hws, h, ih, List.isEmpty_iff]
    · simp [splitWsAux, splitOnPredAux, hws, ih]

/-- C9 (amended): `clean_and_normalize_field` does split on runs of
separators, drop empty fragments and rejoin with a single space — but the
separator set is the full Unicode White_Space set of `char::is_whitespace`
(`rustIsWhitespace`), not only space, tab, newline and carriage return. -/
theorem C9_normalize_split_join (s : List Char) :
    clean_and_normalize_field s =
      joinSpace ((splitOnPredAux rustIsWhitespace s []).filter (fun t => !t.isEmpty)) := by
  unfold clean_and_normalize_field split_whitespace
  rw [splitWsAux_eq_filter_splitOnPred s []]

-- ============================================
-- ColumnCountDetector: detect_column_count (engine.rs lines 210-231)
-- ============================================

/-- `HeaderMode` from engine.rs lines 20-27. -/
inductive HeaderMode where
  | HasHeaders
  | NoHeaders
deriving DecidableEq, Repr

/-- Rust `str::trim`: strip `char::is_whitespace` characters from both
ends. -/
def trim (s : List Char) : List Char :=
  ((s.dropWhile rustIsWhitespace).reverse.dropWhile rustIsWhitespace).reverse

/-- Rust `str::parse::<usize>()` (64-bit `usize`): an optional leading `+`,
then one or more ASCII digits, failing on an empty digit string, any
non-digit character, or overflow past `usize::MAX`. -/
def parseUsize (s : List Char) : Option Nat :=
  let digits := match s with
    | '+' :: rest => rest
    | _ => s
  if digits = [] then none
  else if digits.all (fun c => c.isDigit) then
    let v := digits.foldl (fun n c => n * 10 + (c.toNat - 48)) 0
    if v ≤ 2 ^ 64 - 1 then some v else none
  else none

/-- engine.rs lines 210-231, `detect_column_count`: with headers, the header
row's length is the column count and the header is returned for emission;
without headers, the stdin line is trimmed and parsed as `usize`, and a
parse failure aborts setup (the spec's `ConfigError`). -/
def detect_column_count (mode : HeaderMode) (headers : List Field) (input : Field) :
    Except String (Nat × Option (List Field)) :=
  match mode with
  | HeaderMode.HasHeaders => Except.ok (headers.length, some headers)
  | HeaderMode.NoHeaders =>
    match parseUsize (trim input) with
    | some n => Except.ok (n, none)
    | none => Except.error "ConfigError"

/-- Counterexample to C8: the input line `"0\n"` parses successfully —
`"0".parse::<usize>()` is `Ok(0)` — so setup does not fail on a zero column
count; reconstruction proceeds with `expected_columns = 0`. -/
theorem C8_counterexample :
    detect_column_count HeaderMode.NoHeaders [] ['0', '\n'] =
      Except.ok (0, none) := by
  rfl

/-- C8 (amended): in no-headers mode setup fails with a `ConfigError`
exactly when the trimmed input fails to parse as a `usize` (missing, i.e.
empty, non-numeric, or overflowing); any successfully parsed value —
including zero — is accepted and reconstruction proceeds with it. -/
theorem C8_config_error (headers : List Field) (input : Field) :
    (parseUsize (trim input) = none →
        detect_column_count HeaderMode.NoHeaders headers input =
          Except.error "ConfigError") ∧
    (∀ k, parseUsize (trim input) = some k →
        detect_column_count HeaderMode.NoHeaders headers input =
          Except.ok (k, none)) := by
  constructor
  · intro h
    simp [detect_column_count, h]
  · intro k h
    simp [detect_column_count, h]

/-- Witness for C8: the empty input line fails, the line `" 3\n"` parses to
3. -/
theorem C8_config_error_witness :
    detect_column_count HeaderMode.NoHeaders [] [] = Except.error "ConfigError" ∧
    detect_column_count HeaderMode.NoHeaders [] [' ', '3', '\n'] = Except.ok (3, none) :=
  ⟨(C8_config_error [] []).1 (by decide),
   (C8_config_error [] [' ', '3', '\n']).2 3 (by decide)⟩

end Fixerr
